import Mathlib

/-!
Verification of the core request-execution engine of a Shopify admin-API
client library: error classification, HTTP retry policy, GraphQL
cost-aware retry, Link-header pagination extraction, query merging and
error rendering, shallowly embedded in Lean.

Go `float64` values that the source manipulates (throttle status, parsed
`Retry-After` headers) are modelled as rationals; all values appearing in
the claims are small integers or halves on which IEEE doubles are exact.
Strings rendered by `fmt.Sprint` from decoded JSON values are modelled as
the already-rendered strings.
-/

namespace GoShopify

/-- Truncation of a rational toward zero, the behaviour of a Go
`int(f)` or `time.Duration(f)` conversion from `float64`. -/
def goTrunc (q : ℚ) : Int :=
  if 0 ≤ q then q.floor else -((-q).floor)

/-- Lexicographic byte-order comparison of character lists, the order used
by Go `sort.Strings` (code points below 128 coincide with bytes on every
input in this development). -/
def charListLe : List Char → List Char → Bool
  | [], _ => true
  | _ :: _, [] => false
  | a :: as, b :: bs =>
    if a.toNat < b.toNat then true
    else if b.toNat < a.toNat then false
    else charListLe as bs

/-- String comparison via `charListLe`. -/
def goStringLe (a b : String) : Bool := charListLe a.toList b.toList

/-- The `goStringLe` comparison as a relation, for use with sorting. -/
def strLeRel (a b : String) : Prop := goStringLe a b = true

instance : DecidableRel strLeRel := fun a b => instDecidableEqBool (goStringLe a b) true

/-- Go `sort.Strings`, modelled by insertion sort under `strLeRel` (the
source's sort is only used for its output order, which any correct sort
produces). -/
def sortStrings (l : List String) : List String := List.insertionSort strLeRel l

/-- Splitting a character list at every occurrence of a separator, the
behaviour of Go `strings.Split` for a one-character separator. -/
def splitOnChar (sep : Char) : List Char → List (List Char)
  | [] => [[]]
  | c :: cs =>
    if c = sep then [] :: splitOnChar sep cs
    else
      match splitOnChar sep cs with
      | h :: t => (c :: h) :: t
      | [] => [[c]]

/-- Go `strings.Split` with a one-character separator. -/
def goSplit (s : String) (sep : Char) : List String :=
  (splitOnChar sep s.toList).map String.mk

/-- A general response error following the layout of Shopify's response
errors, from `ResponseError` in the source. -/
structure ResponseError where
  Status : Int
  Message : String
  Errors : List String
deriving Repr, DecidableEq

/-- The error taxonomy produced by the engine: normalized API errors,
rate-limit errors wrapping them, response-decoding errors, the raw JSON
error returned when a success body fails to decode, transport-level
errors from the HTTP client, and the numeric-parse and URL errors of the
standard library that the engine propagates unchanged. -/
inductive GoError
  | responseError (e : ResponseError)
  | rateLimitError (e : ResponseError) (RetryAfter : Int)
  | responseDecodingError (Body : String) (Message : String) (Status : Int)
  | jsonDecodeError (msg : String)
  | transportError
  | atoiError (s : String)
  | urlError (msg : String)
deriving Repr, DecidableEq

/-- A value of the map-shaped `errors` field: each key maps to a JSON
array (modelled element-wise as rendered strings), a single string, or a
value of another kind, which the source's type switch skips. -/
inductive MapVal
  | arr (xs : List String)
  | str (s : String)
  | other
deriving Repr, DecidableEq

/-- The dynamically-shaped `errors` field of an error body: absent (or
JSON null), a single string, an array, a map, or a JSON value of any
other kind (on which the source's type switch does nothing). -/
inductive ErrorsField
  | absent
  | str (s : String)
  | arr (xs : List String)
  | map (kvs : List (String × MapVal))
  | other
deriving Repr, DecidableEq

/-- The body of an HTTP response as seen by the error classifier: empty,
not valid JSON (carrying the raw bytes and the parser's message), or
decoded into the anonymous struct with an `error` string field and an
`errors` field of unspecified shape. -/
inductive ErrBody
  | empty
  | invalid (raw : String) (msg : String)
  | parsed (errStr : String) (errsFld : ErrorsField)
deriving Repr, DecidableEq

/-- An HTTP response, carrying the pieces of `*http.Response` the engine
reads: the status code, the parsed `Retry-After` header (0 when absent or
unparseable, matching `strconv.ParseFloat`'s zero result on error), the
`X-Shopify-Shop-Api-Call-Limit` header split at `/` with both parts run
through `strconv.Atoi` (`none` when it does not split in exactly two),
the `X-Shopify-API-Version` header, the body, and, for the success path,
whether JSON-decoding the body into the caller's value fails. -/
structure HttpResp where
  StatusCode : Int
  RetryAfterHdr : ℚ
  CallLimitHdr : Option (Int × Int)
  ApiVersionHdr : String
  Body : ErrBody
  DecodeErr : Option String
deriving Repr, DecidableEq

/-- One step of the source's flattening of a map-shaped `errors` field:
format the pair, use it as the primary message if none is set yet, and
append it to the collected messages. -/
def appendMapEntry (acc : String × List String) (k e : String) : String × List String :=
  ((if acc.1 = "" then k ++ ": " ++ e else acc.1), acc.2 ++ [k ++ ": " ++ e])

/-- The source's map branch of `CheckResponseError`: iterate the keys,
and per key either every array element or the single string; values of
other kinds are skipped. -/
def flattenErrorsMap (start : String × List String) (kvs : List (String × MapVal)) :
    String × List String :=
  kvs.foldl (fun acc kv =>
    match kv.2 with
    | .arr xs => xs.foldl (fun a e => appendMapEntry a kv.1 e) acc
    | .str s => appendMapEntry acc kv.1 s
    | .other => acc) start

/-- `wrapSpecificError` from the source: 429 becomes a rate-limit error
carrying the truncated `Retry-After` header, 406 replaces the message
with the canonical status text. -/
def wrapSpecificError (r : HttpResp) (e : ResponseError) : GoError :=
  if e.Status = 429 then .rateLimitError e (goTrunc r.RetryAfterHdr)
  else if e.Status = 406 then .responseError { e with Message := "Not Acceptable" }
  else .responseError e

/-- `CheckResponseError` from the source: 2xx statuses succeed; an
unreadable (non-JSON) body yields a decoding error; otherwise the
`error`/`errors` fields are flattened into a `ResponseError` and wrapped. -/
def CheckResponseError (r : HttpResp) : Option GoError :=
  if 200 ≤ r.StatusCode ∧ r.StatusCode < 300 then none
  else
    match r.Body with
    | .invalid raw msg => some (.responseDecodingError raw msg r.StatusCode)
    | .empty => some (wrapSpecificError r ⟨r.StatusCode, "", []⟩)
    | .parsed errStr errsFld =>
      match errsFld with
      | .absent => some (wrapSpecificError r ⟨r.StatusCode, errStr, []⟩)
      | .other => some (wrapSpecificError r ⟨r.StatusCode, errStr, []⟩)
      | .str s => some (wrapSpecificError r ⟨r.StatusCode, s, []⟩)
      | .arr xs => some (wrapSpecificError r ⟨r.StatusCode, String.intercalate ", " xs, xs⟩)
      | .map kvs =>
        let p := flattenErrorsMap (errStr, []) kvs
        some (wrapSpecificError r ⟨r.StatusCode, p.1, p.2⟩)

/-- Throttle status of the shop's GraphQL rate limit points, from
`GraphQLThrottleStatus` in the source (float64 fields modelled as ℚ). -/
structure GraphQLThrottleStatus where
  MaximumAvailable : ℚ
  CurrentlyAvailable : ℚ
  RestoreRate : ℚ
deriving Repr, DecidableEq

/-- Cost of a GraphQL query, from `GraphQLCost` in the source. -/
structure GraphQLCost where
  RequestedQueryCost : Int
  ActualQueryCost : Option Int
  ThrottleStatus : GraphQLThrottleStatus
deriving Repr, DecidableEq

/-- `GraphQLCost.RetryAfterSeconds` from the source: the estimated retry
delay based on the requested/actual query cost and the throttle status. -/
def GraphQLCost.RetryAfterSeconds (c : GraphQLCost) : ℚ :=
  let diff : ℚ :=
    match c.ActualQueryCost with
    | some a => c.ThrottleStatus.CurrentlyAvailable - (a : ℚ)
    | none => c.ThrottleStatus.CurrentlyAvailable - (c.RequestedQueryCost : ℚ)
  if diff < 0 then -diff / c.ThrottleStatus.RestoreRate else 0

/-- Rate-limit bookkeeping on the client, from `RateLimitInfo` in the
source. -/
structure RateLimitInfo where
  RequestCount : Int
  BucketSize : Int
  GraphQLCost : Option GoShopify.GraphQLCost
  RetryAfterSeconds : ℚ
deriving Repr, DecidableEq

/-- The mutable client fields the executor touches: the latched API
version and the rate-limit snapshot. -/
structure ClientState where
  apiVersion : String
  RateLimits : RateLimitInfo
deriving Repr, DecidableEq

/-- The source's header bookkeeping at the end of a successful
`doGetHeaders` run: request count and bucket size from the call-limit
header when it splits in two, and the parsed `Retry-After` header. -/
def updateRateLimits (rl : RateLimitInfo) (r : HttpResp) : RateLimitInfo :=
  let rl1 :=
    match r.CallLimitHdr with
    | some nm => { rl with RequestCount := nm.1, BucketSize := nm.2 }
    | none => rl
  { rl1 with RetryAfterSeconds := r.RetryAfterHdr }

/-- The outcome of one HTTP attempt inside the retry loop: a transport
error from the underlying client, or a response. -/
inductive Attempt
  | transportErr
  | resp (r : HttpResp)
deriving Repr, DecidableEq

/-- What a `doGetHeaders` run returns: the final response on success, an
error, or exhaustion of the scripted attempt list (the modelled run ran
out of responses while the loop wanted to continue). -/
inductive DoOutcome
  | ok (r : HttpResp)
  | err (e : GoError)
  | exhausted
deriving Repr, DecidableEq

/-- Observable result of a `doGetHeaders` run: outcome, the seconds slept
before each retry in order, the number of attempts made, and the client
state left behind. -/
structure DoResult where
  outcome : DoOutcome
  delays : List Int
  attempts : Nat
  state : ClientState
deriving Repr, DecidableEq

/-- The source's success path after the retry loop: latch the API version
from the response header when the client still uses the default, decode
the body into the caller's value when one was requested (a decode failure
is returned as the raw JSON error), then update the rate-limit state from
the response headers. -/
def finishSuccess (wantBody : Bool) (st : ClientState) (r : HttpResp) (attempts : Nat)
    (delays : List Int) : DoResult :=
  let st1 :=
    if st.apiVersion = "stable" ∧ r.ApiVersionHdr ≠ "" then
      { st with apiVersion := r.ApiVersionHdr }
    else st
  match wantBody, r.DecodeErr with
  | true, some m => ⟨.err (.jsonDecodeError m), delays, attempts, st1⟩
  | _, _ => ⟨.ok r, delays, attempts, { st1 with RateLimits := updateRateLimits st1.RateLimits r }⟩

/-- The retry loop of `doGetHeaders` from the source, driven by a scripted
list of per-attempt outcomes.  A transport error returns immediately; a
classified response error returns immediately once the remaining budget
is at most one; otherwise a rate-limit error sleeps its retry-after and
retries, a 503 retries with no delay, and anything else returns. -/
def doGetHeadersLoop (wantBody : Bool) (st : ClientState) :
    Int → Nat → List Int → List Attempt → DoResult
  | _retries, attempts, delays, [] => ⟨.exhausted, delays, attempts, st⟩
  | _retries, attempts, delays, .transportErr :: _ => ⟨.err .transportError, delays, attempts + 1, st⟩
  | retries, attempts, delays, .resp r :: rest =>
    match CheckResponseError r with
    | none => finishSuccess wantBody st r (attempts + 1) delays
    | some respErr =>
      if retries ≤ 1 then ⟨.err respErr, delays, attempts + 1, st⟩
      else
        match respErr with
        | .rateLimitError _ ra =>
          doGetHeadersLoop wantBody st (retries - 1) (attempts + 1) (delays ++ [ra]) rest
        | _ =>
          if r.StatusCode = 503 then
            doGetHeadersLoop wantBody st (retries - 1) (attempts + 1) delays rest
          else ⟨.err respErr, delays, attempts + 1, st⟩

/-- `doGetHeaders` from the source: reset the attempt counter and run the
retry loop (the request body is rebuffered identically on every attempt,
so the scripted attempt outcomes are a function of the attempt index
only). -/
def doGetHeaders (wantBody : Bool) (retries : Int) (st : ClientState)
    (atts : List Attempt) : DoResult :=
  doGetHeadersLoop wantBody st retries 0 [] atts

/-- A GraphQL query error, from `graphQLError` in the source; `ExtCode`
is the code carried by its extensions, `none` when the extensions are
nil. -/
structure graphQLError where
  Message : String
  ExtCode : Option String
deriving Repr, DecidableEq

/-- Whether a query error carries the `THROTTLED` code, the test
`err.Extensions != nil && err.Extensions.Code == graphQLErrorCodeThrottled`
from the source. -/
def graphQLError.throttled (e : graphQLError) : Bool := e.ExtCode = some "THROTTLED"

/-- One round of the GraphQL `Query` loop: the number of HTTP attempts the
inner `Post` performed, the error it returned (if any), and the decoded
response's query errors and cost extensions. -/
structure GQLRound where
  postAttempts : Nat
  postErr : Option GoError
  Errors : List graphQLError
  Cost : Option GraphQLCost
deriving Repr, DecidableEq

/-- Observable result of a GraphQL `Query` run: `none` when the scripted
rounds ran out while the loop wanted to retry, otherwise the returned
error (or success), plus the whole seconds slept before each retry and
the accumulated attempt count. -/
structure QueryResult where
  outcome : Option (Option GoError)
  delays : List Int
  attempts : Nat
deriving Repr, DecidableEq

/-- The suggested wait of one `Query` round: the cost extensions'
retry-after seconds when present (the source's `ra` variable), else its
zero value. -/
def graphQLRa (rd : GQLRound) : ℚ :=
  match rd.Cost with
  | some c => c.RetryAfterSeconds
  | none => 0

/-- The loop of `GraphQLServiceOp.Query` from the source, driven by a
scripted list of rounds.  Attempts accumulate across rounds; when any
query error is throttled, the round fails with a rate-limit error once
the accumulated attempts reach the retry limit and otherwise sleeps the
truncated suggested wait and retries; with no throttled error the
messages are aggregated into a status-200 `ResponseError`; with no query
errors the `Post` error is returned as-is. -/
def queryLoop (retries : Int) : Nat → List Int → List GQLRound → QueryResult
  | attempts, delays, [] => ⟨none, delays, attempts⟩
  | attempts, delays, rd :: rest =>
    let att := attempts + rd.postAttempts
    let ra : ℚ := graphQLRa rd
    match rd.Errors with
    | [] => ⟨some rd.postErr, delays, att⟩
    | _ :: _ =>
      match rd.Errors.find? (fun e => e.throttled) with
      | some te =>
        if retries ≤ (att : Int) then
          ⟨some (some (.rateLimitError ⟨200, te.Message, []⟩ (goTrunc ra))), delays, att⟩
        else queryLoop retries att (delays ++ [goTrunc ra]) rest
      | none => ⟨some (some (.responseError ⟨200, "", rd.Errors.map (fun e => e.Message)⟩)), delays, att⟩

/-- `GraphQLServiceOp.Query` from the source, with the attempt counter
starting at zero. -/
def Query (retries : Int) (rounds : List GQLRound) : QueryResult :=
  queryLoop retries 0 [] rounds

/-- The query-option fields that `extractPagination` populates; the
remaining fields of the source's `ListOptions` are never set by it and
are omitted. -/
structure ListOptions where
  PageInfo : String := ""
  Limit : Int := 0
deriving Repr, DecidableEq

/-- Modelled from the spec: the pagination cursor returned by
`ListWithPagination` (its type declaration is not among the provided
sources), optional next-page and previous-page option sets. -/
structure Pagination where
  NextPageOptions : Option ListOptions := none
  PreviousPageOptions : Option ListOptions := none
deriving Repr, DecidableEq

/-- The value of a hexadecimal digit, as in the standard library's query
unescaping. -/
def unhex (c : Char) : Option Nat :=
  if '0' ≤ c ∧ c ≤ '9' then some (c.toNat - 48)
  else if 'a' ≤ c ∧ c ≤ 'f' then some (c.toNat - 87)
  else if 'A' ≤ c ∧ c ≤ 'F' then some (c.toNat - 55)
  else none

/-- Go `url.QueryUnescape` on a character list: percent escapes are
decoded (failing on a malformed escape), plus becomes space. -/
def queryUnescape : List Char → Option (List Char)
  | [] => some []
  | '%' :: a :: b :: rest =>
    match unhex a, unhex b with
    | some x, some y => (queryUnescape rest).map (fun t => Char.ofNat (16 * x + y) :: t)
    | _, _ => none
  | '%' :: _ => none
  | '+' :: rest => (queryUnescape rest).map (fun t => ' ' :: t)
  | c :: rest => (queryUnescape rest).map (fun t => c :: t)

/-- The per-segment loop of Go `url.ParseQuery`: empty segments are
skipped, each segment is cut at its first equals sign and both halves
unescaped, and the first unescaping failure is the returned error. -/
def parseQuerySegs : List (List Char) → Except GoError (List (String × String))
  | [] => .ok []
  | seg :: rest =>
    if seg = [] then parseQuerySegs rest
    else
      let k := seg.takeWhile (fun c => c ≠ '=')
      let v := (seg.dropWhile (fun c => c ≠ '=')).drop 1
      match queryUnescape k, queryUnescape v with
      | some k2, some v2 =>
        (parseQuerySegs rest).map (fun l => (String.mk k2, String.mk v2) :: l)
      | _, _ => .error (.urlError "invalid URL escape")

/-- Go `url.ParseQuery` as invoked by the source, returning the key/value
pairs in parse order (the underlying `url.Values` keeps per-key values in
this order, which is all the source reads). -/
def parseQuery (s : String) : Except GoError (List (String × String)) :=
  parseQuerySegs (splitOnChar '&' s.toList)

/-- Go `url.Values.Get`: the first value recorded for the key, or the
empty string. -/
def getParam (params : List (String × String)) (k : String) : String :=
  ((params.find? (fun kv => kv.1 = k)).map (fun kv => kv.2)).getD ""

/-- The piece of a parsed URL the pagination extractor reads. -/
structure UrlParts where
  RawQuery : String
deriving Repr, DecidableEq

/-- Go `net/url.Parse` as invoked by the source: the fragment is cut at
the first hash, the raw query is everything after the first question
mark, and the failure modes represented are an embedded control
character and a leading colon (missing protocol scheme). -/
def urlParse (s : String) : Except GoError UrlParts :=
  let cs := s.toList
  if cs.any (fun c => c.toNat < 32 ∨ c.toNat = 127) then
    .error (.urlError "invalid control character in URL")
  else if cs.head? = some ':' then .error (.urlError "missing protocol scheme")
  else
    let beforeFrag := cs.takeWhile (fun c => c ≠ '#')
    .ok ⟨String.mk ((beforeFrag.dropWhile (fun c => c ≠ '?')).drop 1)⟩

/-- Leading spaces removed, as the spec's link pattern allows. -/
def dropSpaces : List Char → List Char
  | ' ' :: cs => dropSpaces cs
  | cs => cs

/-- Strip an expected literal off the front of a character list. -/
def dropLit : List Char → List Char → Option (List Char)
  | [], rest => some rest
  | _ :: _, [] => none
  | l :: ls, c :: cs => if c = l then dropLit ls cs else none

/-- Split a character list at its first closing angle bracket. -/
def splitAtGt : List Char → Option (List Char × List Char)
  | [] => none
  | '>' :: cs => some ([], cs)
  | c :: cs => (splitAtGt cs).map (fun p => (c :: p.1, p.2))

/-- The relation name and closing quote at the tail of a link entry,
tolerating trailing spaces. -/
def relSuffix (rest : List Char) : Option String :=
  match dropLit ("previous\"".toList) rest with
  | some tail => if dropSpaces tail = [] then some "previous" else none
  | none =>
    match dropLit ("next\"".toList) rest with
    | some tail => if dropSpaces tail = [] then some "next" else none
    | none => none

/-- Modelled from the spec: the source's `linkRegex` (its declaration is
not among the provided sources) matches one link entry of the exact
two-capture shape of a URL in angle brackets followed by a `previous` or
`next` relation, with surrounding spaces allowed; the captures are the
nonempty URL (which cannot contain a closing angle bracket) and the
relation name. -/
def linkRegexMatch (s : String) : Option (String × String) :=
  match dropSpaces s.toList with
  | '<' :: cs =>
    match splitAtGt cs with
    | some (url, rest) =>
      if url = [] then none
      else
        match dropLit ("; rel=\"".toList) rest with
        | some rest2 =>
          match relSuffix rest2 with
          | some rel => some (String.mk url, rel)
          | none => none
        | none => none
    | none => none
  | _ => none

/-- Go `strconv.Atoi` without the 64-bit overflow check (all inputs in
this development are small): an optional sign followed by at least one
digit. -/
def digitsVal : List Char → Option Nat
  | [] => none
  | ds =>
    if ds.all Char.isDigit then some (ds.foldl (fun a c => a * 10 + (c.toNat - 48)) 0)
    else none

/-- Sign handling of `strconv.Atoi`. -/
def atoiCore : List Char → Option Int
  | '+' :: ds => (digitsVal ds).map (fun n => (n : Int))
  | '-' :: ds => (digitsVal ds).map (fun n => -(n : Int))
  | ds => (digitsVal ds).map (fun n => (n : Int))

/-- `strconv.Atoi` as invoked by the source, failing with a numeric-parse
error. -/
def atoi (s : String) : Except GoError Int :=
  match atoiCore s.toList with
  | some n => .ok n
  | none => .error (.atoiError s)

/-- The body of the source's `extractPagination` loop for one link entry:
match it against the link pattern, parse the URL and its query, require a
`page_info` parameter, parse an optional integer `limit`, and store the
options under the next or previous cursor. -/
def processLink (p : Pagination) (link : String) : Except GoError Pagination :=
  match linkRegexMatch link with
  | none => .error (.responseDecodingError "" "could not extract pagination link header" 0)
  | some (u, rel) =>
    match urlParse u with
    | .error _ => .error (.responseDecodingError "" "pagination does not contain a valid URL" 0)
    | .ok parts =>
      match parseQuery parts.RawQuery with
      | .error e => .error e
      | .ok params =>
        let pageInfo := getParam params "page_info"
        if pageInfo = "" then
          .error (.responseDecodingError "" "page_info is missing" 0)
        else
          match (if getParam params "limit" = "" then .ok 0 else atoi (getParam params "limit") : Except GoError Int) with
          | .error e => .error e
          | .ok lim =>
            let opts : ListOptions := { PageInfo := pageInfo, Limit := lim }
            if rel = "next" then .ok { p with NextPageOptions := some opts }
            else .ok { p with PreviousPageOptions := some opts }

/-- `extractPagination` from the source: an empty header yields the empty
pagination value, otherwise the header is split on commas and each entry
processed in order, the first failure aborting the run. -/
def extractPagination (linkHeader : String) : Except GoError Pagination :=
  if linkHeader = "" then .ok {}
  else (goSplit linkHeader ',').foldlM processLink {}

/-- Go `url.Values` with deterministic bookkeeping: an association list
from keys to value lists.  The random map iteration order of the source
only ever feeds `Encode`, which sorts keys, so a list in first-insertion
order is observationally equivalent. -/
abbrev Values := List (String × List String)

/-- Go `url.Values.Add`: append the value to the key's list, creating the
key if needed. -/
def valuesAdd (vs : Values) (k v : String) : Values :=
  if vs.any (fun kv => kv.1 = k) then
    vs.map (fun kv => if kv.1 = k then (kv.1, kv.2 ++ [v]) else kv)
  else vs ++ [(k, [v])]

/-- The value list recorded under a key. -/
def valuesOf (vs : Values) (k : String) : List String :=
  ((vs.find? (fun kv => kv.1 = k)).map (fun kv => kv.2)).getD []

/-- Go `url.Values.Encode`: keys sorted, each key's values in list order,
rendered `k=v` and joined with ampersands (percent-escaping omitted; all
inputs in this development are unreserved). -/
def valuesEncode (vs : Values) : String :=
  let sorted := List.insertionSort (fun a b : String × List String => goStringLe a.1 b.1 = true) vs
  String.intercalate "&" (sorted.flatMap (fun kv => kv.2.map (fun v => kv.1 ++ "=" ++ v)))

/-- Go `url.URL.Query()`, which parses the raw query ignoring errors:
segments that fail to unescape are skipped, the rest are returned in
parse order. -/
def parseQueryValuesLoop : List (List Char) → List (String × String)
  | [] => []
  | seg :: rest =>
    if seg = [] then parseQueryValuesLoop rest
    else
      let k := seg.takeWhile (fun c => c ≠ '=')
      let v := (seg.dropWhile (fun c => c ≠ '=')).drop 1
      match queryUnescape k, queryUnescape v with
      | some k2, some v2 => (String.mk k2, String.mk v2) :: parseQueryValuesLoop rest
      | _, _ => parseQueryValuesLoop rest

/-- The merged `url.Values` built by `NewRequest` when options are
present: the path's literal query parameters are added one by one into
the options-derived values. -/
def mergeQueryValues (pathRawQuery : String) (optionsQuery : Values) : Values :=
  (parseQueryValuesLoop (splitOnChar '&' pathRawQuery.toList)).foldl
    (fun acc kv => valuesAdd acc kv.1 kv.2) optionsQuery

/-- The raw query of the URL built by `NewRequest` from the source, for a
path already carrying literal query parameters and a non-nil options
value: the literal parameters are added into the encoded options values
and the merge re-encoded. -/
def newRequestRawQuery (pathRawQuery : String) (optionsQuery : Values) : String :=
  valuesEncode (mergeQueryValues pathRawQuery optionsQuery)

/-- The values a path's literal raw query carries for one key, in parse
order. -/
def pathVals (pathRawQuery : String) (k : String) : List String :=
  (parseQueryValuesLoop (splitOnChar '&' pathRawQuery.toList)).filterMap
    (fun kv => if kv.1 = k then some kv.2 else none)

/-- The effective cost of a GraphQL cost snapshot: the actual query cost
when present, else the requested cost. -/
def GraphQLCost.effectiveCost (c : GraphQLCost) : ℚ :=
  match c.ActualQueryCost with
  | some a => (a : ℚ)
  | none => (c.RequestedQueryCost : ℚ)

/-- `ResponseError.Error` from the source: the message when set, else the
sub-messages sorted and joined, else a fixed fallback. -/
def ResponseError.Error (e : ResponseError) : String :=
  if e.Message ≠ "" then e.Message
  else
    let s := String.intercalate ", " (sortStrings e.Errors)
    if s ≠ "" then s else "Unknown Error"

/-- The formatted string of one (key, element) pair of a map-shaped
errors body. -/
def fmtPair (k e : String) : String := k ++ ": " ++ e

/-- All formatted (key, element) pairs of a map of arrays, per key then
per element. -/
def pairsOf (kvs : List (String × List String)) : List String :=
  kvs.flatMap (fun kv => kv.2.map (fun e => fmtPair kv.1 e))

/-- A map-shaped errors field whose values are all arrays. -/
def mapOfArrays (kvs : List (String × List String)) : List (String × MapVal) :=
  kvs.map (fun kv => (kv.1, .arr kv.2))

/-- The `Errors` list of the `ResponseError` inside a classifier result
(both wrappings preserve it); empty for the other error kinds. -/
def resultErrors : Option GoError → List String
  | some (.responseError e) => e.Errors
  | some (.rateLimitError e _) => e.Errors
  | _ => []

/-- The `Message` of the `ResponseError` inside a classifier result;
empty for the other error kinds. -/
def resultMessage : Option GoError → String
  | some (.responseError e) => e.Message
  | some (.rateLimitError e _) => e.Message
  | _ => ""

/-- A concrete 429 response fixture advertising `Retry-After: 2` with an
empty body. -/
def resp429ex : HttpResp := ⟨429, 2, none, "", .empty, none⟩

/-- A concrete successful response fixture carrying a call-limit header
of 32/40 and `Retry-After: 1`. -/
def resp200ex : HttpResp := ⟨200, 1, some (32, 40), "", .empty, none⟩

/-- A concrete 500 response fixture carrying a call-limit header of
32/40 and an empty body. -/
def resp500ex : HttpResp := ⟨500, 0, some (32, 40), "", .empty, none⟩

/-- A concrete client-state fixture with a pinned API version and a
zeroed rate-limit snapshot. -/
def stEx : ClientState := ⟨"2024-01", ⟨0, 0, none, 0⟩⟩

/-- A concrete `Query` round fixture whose single error is throttled and
whose cost snapshot suggests a 2-second wait. -/
def rdThrottled : GQLRound :=
  ⟨1, none, [⟨"Throttled", some "THROTTLED"⟩], some ⟨200, none, ⟨1000, 100, 50⟩⟩⟩

/-- A concrete `Query` round fixture with two non-throttled errors and no
cost extensions. -/
def rdPlain : GQLRound := ⟨1, none, [⟨"Nope", none⟩, ⟨"Also", some "OTHER"⟩], none⟩

deriving instance DecidableEq for Except

theorem charListLe_total (as bs : List Char) :
    charListLe as bs = true ∨ charListLe bs as = true := by
  induction as generalizing bs with
  | nil => left; rfl
  | cons a as ih =>
    cases bs with
    | nil => right; rfl
    | cons b bs =>
      by_cases h1 : a.toNat < b.toNat
      · left; simp [charListLe, h1]
      · by_cases h2 : b.toNat < a.toNat
        · right; simp [charListLe, h2]
        · simpa [charListLe, h1, h2] using ih bs

theorem charListLe_antisymm (as bs : List Char) (h1 : charListLe as bs = true)
    (h2 : charListLe bs as = true) : as = bs := by
  induction as generalizing bs with
  | nil =>
    cases bs with
    | nil => rfl
    | cons b bs => simp [charListLe] at h2
  | cons a as ih =>
    cases bs with
    | nil => simp [charListLe] at h1
    | cons b bs =>
      by_cases hab : a.toNat < b.toNat
      · exfalso
        have hba : ¬ b.toNat < a.toNat := by omega
        simp [charListLe, hab, hba] at h2
      · by_cases hba : b.toNat < a.toNat
        · exfalso; simp [charListLe, hab, hba] at h1
        · have hc : a = b := by
            have he : a.toNat = b.toNat := by omega
            rw [← Char.ofNat_toNat a, he, Char.ofNat_toNat]
          subst hc
          simp only [charListLe, hab, hba, if_neg, if_false] at h1 h2
          exact congrArg (List.cons a) (ih bs h1 h2)

theorem charListLe_trans (as bs cs : List Char) (h1 : charListLe as bs = true)
    (h2 : charListLe bs cs = true) : charListLe as cs = true := by
  induction as generalizing bs cs with
  | nil => rfl
  | cons a as ih =>
    cases bs with
    | nil => simp [charListLe] at h1
    | cons b bs =>
      cases cs with
      | nil => simp [charListLe] at h2
      | cons c cs =>
        by_cases hab : a.toNat < b.toNat <;> by_cases hba : b.toNat < a.toNat
        · omega
        · by_cases hbc : b.toNat < c.toNat <;> by_cases hcb : c.toNat < b.toNat
          · omega
          · have : a.toNat < c.toNat := by omega
            simp [charListLe, this]
          · exfalso; simp [charListLe, hbc, hcb] at h2
          · have : a.toNat < c.toNat := by omega
            simp [charListLe, this]
        · exfalso; simp [charListLe, hab, hba] at h1
        · by_cases hbc : b.toNat < c.toNat <;> by_cases hcb : c.toNat < b.toNat
          · omega
          · have : a.toNat < c.toNat := by omega
            simp [charListLe, this]
          · exfalso; simp [charListLe, hbc, hcb] at h2
          · have hac : ¬ a.toNat < c.toNat := by omega
            have hca : ¬ c.toNat < a.toNat := by omega
            simp only [charListLe, hab, hba, if_neg, if_false] at h1
            simp only [charListLe, hbc, hcb, if_neg, if_false] at h2
            simp only [charListLe, hac, hca, if_neg, if_false]
            exact ih bs cs h1 h2

instance : IsTotal String strLeRel :=
  ⟨fun a b => charListLe_total a.toList b.toList⟩

instance : IsTrans String strLeRel :=
  ⟨fun _ _ _ h1 h2 => charListLe_trans _ _ _ h1 h2⟩

instance : IsAntisymm String strLeRel :=
  ⟨fun _ _ h1 h2 => String.toList_inj.mp (charListLe_antisymm _ _ h1 h2)⟩

theorem sortStrings_sorted (l : List String) : List.Sorted strLeRel (sortStrings l) :=
  List.sorted_insertionSort strLeRel l

theorem sortStrings_perm (l : List String) : List.Perm (sortStrings l) l :=
  List.perm_insertionSort strLeRel l

theorem sortStrings_eq_of_perm {l₁ l₂ : List String} (h : List.Perm l₁ l₂) :
    sortStrings l₁ = sortStrings l₂ :=
  List.eq_of_perm_of_sorted ((sortStrings_perm l₁).trans (h.trans (sortStrings_perm l₂).symm))
    (sortStrings_sorted l₁) (sortStrings_sorted l₂)

/-- C10, counterexample: a `ResponseError` with an empty message and the
single sub-message `""` renders as the fallback `"Unknown Error"`, not as
the (empty) sorted join of its non-empty `Errors` list, so the rendered
string is not always the sorted join. -/
theorem spec_c10_counterexample :
    ResponseError.Error ⟨0, "", [""]⟩ = "Unknown Error" ∧
    String.intercalate ", " (sortStrings [""]) = "" ∧
    ("Unknown Error" : String) ≠ "" := by
  refine ⟨by decide, by decide, by decide⟩

/-- C10, amended: for every `ResponseError` whose message is empty and
whose sub-messages have a non-empty sorted join, `Error()` renders the
sub-messages joined by `", "` in lexicographically sorted order — a
sorted permutation of the `Errors` list — and the rendering is invariant
under any permutation of the `Errors` list; when the sorted join is
empty (e.g. a single empty sub-message) the rendering falls back to
`"Unknown Error"`. -/
theorem spec_c10_error_rendering (e e' : ResponseError)
    (hm : e.Message = "")
    (hne : String.intercalate ", " (sortStrings e.Errors) ≠ "") :
    e.Error = String.intercalate ", " (sortStrings e.Errors) ∧
    List.Sorted strLeRel (sortStrings e.Errors) ∧
    List.Perm (sortStrings e.Errors) e.Errors ∧
    (e'.Message = "" → List.Perm e'.Errors e.Errors → e'.Error = e.Error) := by
  refine ⟨?_, sortStrings_sorted _, sortStrings_perm _, ?_⟩
  · simp [ResponseError.Error, hm, hne]
  · intro hm' hp
    simp [ResponseError.Error, hm, hm', sortStrings_eq_of_perm hp]

/-- Witness for C10 at a concrete error: sub-messages `["b", "a"]` render
as their sorted join, invariantly under reordering. -/
theorem spec_c10_witness :
    ResponseError.Error ⟨0, "", ["b", "a"]⟩ = String.intercalate ", " (sortStrings ["b", "a"]) ∧
    ResponseError.Error ⟨0, "", ["a", "b"]⟩ = ResponseError.Error ⟨0, "", ["b", "a"]⟩ := by
  have h := spec_c10_error_rendering ⟨0, "", ["b", "a"]⟩ ⟨0, "", ["a", "b"]⟩ rfl (by decide)
  exact ⟨h.1, h.2.2.2 rfl (by decide)⟩

/-- C3: the suggested retry-after wait of a GraphQL cost snapshot is
`(cost - currentlyAvailable) / restoreRate` when the deficit
`currentlyAvailable - cost` is negative and `0` otherwise, where the cost
is the actual query cost when present and the requested cost otherwise. -/
theorem spec_c3_retry_after (c : GraphQLCost) :
    (c.ThrottleStatus.CurrentlyAvailable - c.effectiveCost < 0 →
      c.RetryAfterSeconds =
        (c.effectiveCost - c.ThrottleStatus.CurrentlyAvailable) / c.ThrottleStatus.RestoreRate) ∧
    (¬ c.ThrottleStatus.CurrentlyAvailable - c.effectiveCost < 0 →
      c.RetryAfterSeconds = 0) := by
  obtain ⟨req, act, ts⟩ := c
  constructor <;> intro h <;> cases act <;>
    simp_all [GraphQLCost.RetryAfterSeconds, GraphQLCost.effectiveCost, neg_sub]

/-- Witness for C3 at the claim's example: currently available 100,
restore rate 50, requested cost 200 and no actual cost yield a suggested
wait of exactly 2 seconds. -/
theorem spec_c3_witness :
    GraphQLCost.RetryAfterSeconds
      { RequestedQueryCost := 200, ActualQueryCost := none,
        ThrottleStatus := ⟨1000, 100, 50⟩ } = 2 := by
  have h := (spec_c3_retry_after ⟨200, none, ⟨1000, 100, 50⟩⟩).1 (by norm_num [GraphQLCost.effectiveCost])
  rw [h]; norm_num [GraphQLCost.effectiveCost]

theorem fmtPair_ne (k e : String) : fmtPair k e ≠ "" := by
  intro h
  have h1 := congrArg String.length h
  have h2 : (": ").length = 2 := rfl
  simp [fmtPair, String.length_append, h2] at h1

theorem appendMapEntry_fold (k : String) (vs : List String) :
    ∀ (m : String) (es : List String),
      vs.foldl (fun a e => appendMapEntry a k e) (m, es) =
        ((if m = "" then (vs.map (fmtPair k)).headD "" else m), es ++ vs.map (fmtPair k)) := by
  induction vs with
  | nil =>
    intro m es
    by_cases hm : m = "" <;> simp [hm]
  | cons v tl ih =>
    intro m es
    by_cases hm : m = ""
    · subst hm
      have hstep : appendMapEntry ("", es) k v = (fmtPair k v, es ++ [fmtPair k v]) := by
        simp [appendMapEntry, fmtPair]
      rw [List.foldl_cons, hstep, ih (fmtPair k v) (es ++ [fmtPair k v])]
      simp [fmtPair_ne k v]
    · have hstep : appendMapEntry (m, es) k v = (m, es ++ [fmtPair k v]) := by
        simp [appendMapEntry, fmtPair, hm]
      rw [List.foldl_cons, hstep, ih m (es ++ [fmtPair k v])]
      simp [hm]

theorem flattenErrorsMap_arr (kvs : List (String × List String)) :
    ∀ (m : String) (es : List String),
      flattenErrorsMap (m, es) (mapOfArrays kvs) =
        ((if m = "" then (pairsOf kvs).headD "" else m), es ++ pairsOf kvs) := by
  induction kvs with
  | nil =>
    intro m es
    by_cases hm : m = "" <;> simp [flattenErrorsMap, mapOfArrays, pairsOf, hm]
  | cons kv tl ih =>
    intro m es
    have hunfold : flattenErrorsMap (m, es) (mapOfArrays (kv :: tl)) =
        flattenErrorsMap (kv.2.foldl (fun a e => appendMapEntry a kv.1 e) (m, es)) (mapOfArrays tl) := by
      simp [flattenErrorsMap, mapOfArrays]
    rw [hunfold, appendMapEntry_fold kv.1 kv.2 m es]
    have hpairs : pairsOf (kv :: tl) = kv.2.map (fmtPair kv.1) ++ pairsOf tl := by
      simp [pairsOf]
    by_cases hm : m = ""
    · subst hm
      cases hv : kv.2 with
      | nil =>
        rw [ih]
        simp [hpairs, hv]
      | cons v vs =>
        rw [ih]
        have hne := fmtPair_ne kv.1 v
        simp [hpairs, hv, hne]
    · rw [ih]
      simp [hpairs, hm, List.append_assoc]

/-- C6, counterexample: a 406 response whose body carries the errors
array `["foo", "bar"]` is classified with message `"Not Acceptable"`,
not the entries joined by `", "`, so the classifier does not always
produce the joined message the claim states. -/
theorem spec_c6_counterexample :
    CheckResponseError
      { StatusCode := 406, RetryAfterHdr := 0, CallLimitHdr := none, ApiVersionHdr := "",
        Body := .parsed "" (.arr ["foo", "bar"]), DecodeErr := none } =
      some (.responseError ⟨406, "Not Acceptable", ["foo", "bar"]⟩) ∧
    ("Not Acceptable" : String) ≠ String.intercalate ", " ["foo", "bar"] := by
  exact ⟨by decide, by decide⟩

/-- C6, amended: for every non-2xx response whose body is a JSON object
with an `errors` array of N elements, the classifier produces a
`ResponseError` with exactly those N entries in array order and their
`", "`-join as message — except that a 429 response wraps that same
`ResponseError` in a rate-limit error, and a 406 response keeps the N
entries but replaces the message with the canonical status text. -/
theorem spec_c6_errors_array (r : HttpResp) (errStr : String) (xs : List String)
    (hb : r.Body = .parsed errStr (.arr xs))
    (hs : ¬ (200 ≤ r.StatusCode ∧ r.StatusCode < 300)) :
    (r.StatusCode ≠ 429 → r.StatusCode ≠ 406 →
      CheckResponseError r =
        some (.responseError ⟨r.StatusCode, String.intercalate ", " xs, xs⟩)) ∧
    (r.StatusCode = 429 →
      CheckResponseError r =
        some (.rateLimitError ⟨r.StatusCode, String.intercalate ", " xs, xs⟩
          (goTrunc r.RetryAfterHdr))) ∧
    (r.StatusCode = 406 →
      CheckResponseError r = some (.responseError ⟨r.StatusCode, "Not Acceptable", xs⟩)) := by
  refine ⟨fun h1 h2 => ?_, fun h1 => ?_, fun h1 => ?_⟩
  · simp [CheckResponseError, hs, hb, wrapSpecificError, h1, h2]
  · simp [CheckResponseError, hs, hb, wrapSpecificError, h1]
  · simp [CheckResponseError, hs, hb, wrapSpecificError, h1]

/-- Witness for C6 at a concrete 404 response with a three-element errors
array. -/
theorem spec_c6_witness :
    CheckResponseError
      { StatusCode := 404, RetryAfterHdr := 0, CallLimitHdr := none, ApiVersionHdr := "",
        Body := .parsed "" (.arr ["a", "b", "c"]), DecodeErr := none } =
      some (.responseError ⟨404, "a, b, c", ["a", "b", "c"]⟩) := by
  have h := (spec_c6_errors_array
      { StatusCode := 404, RetryAfterHdr := 0, CallLimitHdr := none, ApiVersionHdr := "",
        Body := .parsed "" (.arr ["a", "b", "c"]), DecodeErr := none }
      "" ["a", "b", "c"] rfl (by decide)).1 (by decide) (by decide)
  exact h.trans (by decide)

/-- C7, counterexample: a 406 response whose body maps `"k"` to `["v"]`
and has no `error` field ends with primary message `"Not Acceptable"`,
not the first flattened pair `"k: v"`, so the first pair does not always
become the primary message. -/
theorem spec_c7_counterexample :
    resultMessage (CheckResponseError
      { StatusCode := 406, RetryAfterHdr := 0, CallLimitHdr := none, ApiVersionHdr := "",
        Body := .parsed "" (.map (mapOfArrays [("k", ["v"])])), DecodeErr := none }) =
      "Not Acceptable" ∧
    (pairsOf [("k", ["v"])]).headD "" = "k: v" ∧
    ("Not Acceptable" : String) ≠ "k: v" := by
  exact ⟨by decide, by decide, by decide⟩

/-- C7, amended: for every non-2xx response whose body is a JSON object
with a map-of-arrays `errors` field, the flattened `Errors` list of the
classified error is exactly the `"key: element"` pairs, per key in
iteration order and per element in array order (hence, when the pairs are
pairwise distinct, each appears exactly once), and when no message was
already set the first pair becomes the primary message — except on a 406
response, whose message is subsequently replaced by the canonical status
text. -/
theorem spec_c7_errors_map (r : HttpResp) (errStr : String)
    (kvs : List (String × List String))
    (hb : r.Body = .parsed errStr (.map (mapOfArrays kvs)))
    (hs : ¬ (200 ≤ r.StatusCode ∧ r.StatusCode < 300)) :
    resultErrors (CheckResponseError r) = pairsOf kvs ∧
    ((pairsOf kvs).Nodup →
      ∀ s ∈ pairsOf kvs, (resultErrors (CheckResponseError r)).count s = 1) ∧
    (errStr = "" → r.StatusCode ≠ 406 →
      resultMessage (CheckResponseError r) = (pairsOf kvs).headD "") := by
  have hp := flattenErrorsMap_arr kvs errStr []
  have hres : CheckResponseError r =
      some (wrapSpecificError r
        ⟨r.StatusCode, (if errStr = "" then (pairsOf kvs).headD "" else errStr), pairsOf kvs⟩) := by
    simp [CheckResponseError, hs, hb, hp]
  refine ⟨?_, ?_, ?_⟩
  · rw [hres]
    simp only [wrapSpecificError]
    split_ifs <;> simp [resultErrors]
  · intro hnd s hsmem
    rw [hres]
    simp only [wrapSpecificError]
    split_ifs <;> simp only [resultErrors] <;> exact List.count_eq_one_of_mem hnd hsmem
  · intro hm h406
    rw [hres]
    simp only [wrapSpecificError, hm, eq_self_iff_true, if_true]
    split_ifs <;> simp [resultMessage]

/-- Witness for C7 at a concrete 400 response with two keys. -/
theorem spec_c7_witness :
    resultErrors (CheckResponseError
      { StatusCode := 400, RetryAfterHdr := 0, CallLimitHdr := none, ApiVersionHdr := "",
        Body := .parsed "" (.map (mapOfArrays [("k", ["v1", "v2"]), ("j", ["w"])])),
        DecodeErr := none }) = ["k: v1", "k: v2", "j: w"] ∧
    (resultErrors (CheckResponseError
      { StatusCode := 400, RetryAfterHdr := 0, CallLimitHdr := none, ApiVersionHdr := "",
        Body := .parsed "" (.map (mapOfArrays [("k", ["v1", "v2"]), ("j", ["w"])])),
        DecodeErr := none })).count "k: v1" = 1 ∧
    resultMessage (CheckResponseError
      { StatusCode := 400, RetryAfterHdr := 0, CallLimitHdr := none, ApiVersionHdr := "",
        Body := .parsed "" (.map (mapOfArrays [("k", ["v1", "v2"]), ("j", ["w"])])),
        DecodeErr := none }) = "k: v1" := by
  have h := spec_c7_errors_map
      { StatusCode := 400, RetryAfterHdr := 0, CallLimitHdr := none, ApiVersionHdr := "",
        Body := .parsed "" (.map (mapOfArrays [("k", ["v1", "v2"]), ("j", ["w"])])),
        DecodeErr := none }
      "" [("k", ["v1", "v2"]), ("j", ["w"])] rfl (by decide)
  refine ⟨h.1.trans (by decide), ?_, (h.2.2 rfl (by decide)).trans (by decide)⟩
  exact h.2.1 (by decide) "k: v1" (by decide)

/-- C1: in the transport executor's retry loop, a transport error and a
classified error met with an exhausted budget (at most 1 left) return
immediately — the latter surfacing the classified error itself; with
budget above 1 a rate-limit error sleeps its advertised retry-after and
retries, a 503 retries with no delay, and every other classified error
returns on first occurrence; concretely, a 429 with `Retry-After: 2` and
budget at least 2 causes exactly one 2-second delay followed by a second
attempt, while with budget 1 the rate-limit error returns with no
delay. -/
theorem spec_c1_retry_policy (wantBody : Bool) (st : ClientState) (retries : Int)
    (attempts : Nat) (delays : List Int) (r : HttpResp) (rest : List Attempt) :
    (doGetHeadersLoop wantBody st retries attempts delays (.transportErr :: rest) =
      ⟨.err .transportError, delays, attempts + 1, st⟩) ∧
    (∀ e, CheckResponseError r = some e → retries ≤ 1 →
      doGetHeadersLoop wantBody st retries attempts delays (.resp r :: rest) =
        ⟨.err e, delays, attempts + 1, st⟩) ∧
    (∀ e ra, CheckResponseError r = some (.rateLimitError e ra) → 1 < retries →
      doGetHeadersLoop wantBody st retries attempts delays (.resp r :: rest) =
        doGetHeadersLoop wantBody st (retries - 1) (attempts + 1) (delays ++ [ra]) rest) ∧
    (∀ e, CheckResponseError r = some e → (∀ e' ra, e ≠ .rateLimitError e' ra) →
      r.StatusCode = 503 → 1 < retries →
      doGetHeadersLoop wantBody st retries attempts delays (.resp r :: rest) =
        doGetHeadersLoop wantBody st (retries - 1) (attempts + 1) delays rest) ∧
    (∀ e, CheckResponseError r = some e → (∀ e' ra, e ≠ .rateLimitError e' ra) →
      r.StatusCode ≠ 503 →
      doGetHeadersLoop wantBody st retries attempts delays (.resp r :: rest) =
        ⟨.err e, delays, attempts + 1, st⟩) ∧
    (2 ≤ retries →
      (doGetHeaders wantBody retries st [.resp resp429ex, .resp resp200ex]).delays = [2] ∧
      (doGetHeaders wantBody retries st [.resp resp429ex, .resp resp200ex]).attempts = 2 ∧
      (doGetHeaders wantBody retries st [.resp resp429ex, .resp resp200ex]).outcome =
        .ok resp200ex) ∧
    (doGetHeaders wantBody 1 st [.resp resp429ex] =
      ⟨.err (.rateLimitError ⟨429, "", []⟩ 2), [], 1, st⟩) := by
  have hcre429 : CheckResponseError resp429ex = some (.rateLimitError ⟨429, "", []⟩ 2) := by
    decide
  have hcre200 : CheckResponseError resp200ex = none := by decide
  refine ⟨?_, ?_, ?_, ?_, ?_, ?_, ?_⟩
  · simp [doGetHeadersLoop]
  · intro e he hle
    simp [doGetHeadersLoop, he, hle]
  · intro e ra he hlt
    have hnle : ¬ retries ≤ 1 := by omega
    simp [doGetHeadersLoop, he, hnle]
  · intro e he hne h503 hlt
    have hnle : ¬ retries ≤ 1 := by omega
    cases e <;> first
      | exact absurd rfl (hne _ _)
      | simp [doGetHeadersLoop, he, hnle, h503]
  · intro e he hne h503
    by_cases hle : retries ≤ 1
    · simp [doGetHeadersLoop, he, hle]
    · cases e <;> first
        | exact absurd rfl (hne _ _)
        | simp [doGetHeadersLoop, he, hle, h503]
  · intro h2
    have hnle : ¬ retries ≤ 1 := by omega
    have hstep : doGetHeaders wantBody retries st [.resp resp429ex, .resp resp200ex] =
        doGetHeadersLoop wantBody st (retries - 1) 1 [2] [.resp resp200ex] := by
      simp [doGetHeaders, doGetHeadersLoop, hcre429, hnle]
    have hfin : doGetHeadersLoop wantBody st (retries - 1) 1 [2] [.resp resp200ex] =
        finishSuccess wantBody st resp200ex 2 [2] := by
      simp [doGetHeadersLoop, hcre200]
    rw [hstep, hfin]
    refine ⟨?_, ?_, ?_⟩ <;> cases wantBody <;> simp [finishSuccess, resp200ex]
  · simp [doGetHeaders, doGetHeadersLoop, hcre429]

/-- Witness for C1: with budget 2 the concrete 429-then-success run
sleeps exactly 2 seconds once and succeeds on the second attempt, and
with budget 1 the rate-limit error returns immediately with no delay. -/
theorem spec_c1_witness :
    (doGetHeaders true 2 stEx [.resp resp429ex, .resp resp200ex]).delays = [2] ∧
    (doGetHeaders true 2 stEx [.resp resp429ex, .resp resp200ex]).attempts = 2 ∧
    (doGetHeaders true 2 stEx [.resp resp429ex, .resp resp200ex]).outcome = .ok resp200ex ∧
    doGetHeaders true 1 stEx [.resp resp429ex] =
      ⟨.err (.rateLimitError ⟨429, "", []⟩ 2), [], 1, stEx⟩ := by
  obtain ⟨-, -, -, -, -, h6, h7⟩ :=
    spec_c1_retry_policy true stEx 2 0 [] resp429ex []
  obtain ⟨hd, ha, ho⟩ := h6 (by norm_num)
  exact ⟨hd, ha, ho, h7⟩

theorem finishSuccess_rateLimits (wantBody : Bool) (st : ClientState) (r : HttpResp)
    (attempts : Nat) (delays : List Int) :
    (∀ r2, (finishSuccess wantBody st r attempts delays).outcome = .ok r2 →
      (finishSuccess wantBody st r attempts delays).state.RateLimits =
        updateRateLimits st.RateLimits r2) ∧
    (∀ e, (finishSuccess wantBody st r attempts delays).outcome = .err e →
      (finishSuccess wantBody st r attempts delays).state.RateLimits = st.RateLimits) ∧
    ¬ (finishSuccess wantBody st r attempts delays).outcome = .exhausted := by
  have hrl : (if st.apiVersion = "stable" ∧ r.ApiVersionHdr ≠ "" then
      ({ st with apiVersion := r.ApiVersionHdr } : ClientState) else st).RateLimits =
      st.RateLimits := by split <;> rfl
  cases wantBody <;> cases hdec : r.DecodeErr
  · refine ⟨fun r2 h => ?_, fun e h => ?_, fun h => ?_⟩ <;>
      simp only [finishSuccess, hdec] at h ⊢
    · obtain rfl : r = r2 := by injection h
      rw [hrl]
    · simp at h
    · simp at h
  · refine ⟨fun r2 h => ?_, fun e h => ?_, fun h => ?_⟩ <;>
      simp only [finishSuccess, hdec] at h ⊢
    · obtain rfl : r = r2 := by injection h
      rw [hrl]
    · simp at h
    · simp at h
  · refine ⟨fun r2 h => ?_, fun e h => ?_, fun h => ?_⟩ <;>
      simp only [finishSuccess, hdec] at h ⊢
    · obtain rfl : r = r2 := by injection h
      rw [hrl]
    · simp at h
    · simp at h
  · refine ⟨fun r2 h => ?_, fun e h => ?_, fun h => ?_⟩ <;>
      simp only [finishSuccess, hdec] at h ⊢
    · simp at h
    · exact hrl
    · simp at h

theorem doGetHeadersLoop_state_aux (wantBody : Bool) (st : ClientState)
    (atts : List Attempt) :
    ∀ (retries : Int) (attempts : Nat) (delays : List Int),
    (∀ r, (doGetHeadersLoop wantBody st retries attempts delays atts).outcome = .ok r →
      (doGetHeadersLoop wantBody st retries attempts delays atts).state.RateLimits =
        updateRateLimits st.RateLimits r) ∧
    (∀ e, (doGetHeadersLoop wantBody st retries attempts delays atts).outcome = .err e →
      (doGetHeadersLoop wantBody st retries attempts delays atts).state.RateLimits =
        st.RateLimits) ∧
    ((doGetHeadersLoop wantBody st retries attempts delays atts).outcome = .exhausted →
      (doGetHeadersLoop wantBody st retries attempts delays atts).state.RateLimits =
        st.RateLimits) := by
  induction atts with
  | nil =>
    intro retries attempts delays
    refine ⟨fun r h => ?_, fun e h => ?_, fun _ => ?_⟩
    · simp [doGetHeadersLoop] at h
    · simp [doGetHeadersLoop] at h
    · simp [doGetHeadersLoop]
  | cons a rest ih =>
    intro retries attempts delays
    cases a with
    | transportErr =>
      refine ⟨fun r h => ?_, fun e h => ?_, fun h => ?_⟩
      · simp [doGetHeadersLoop] at h
      · simp [doGetHeadersLoop]
      · simp [doGetHeadersLoop] at h
    | resp r0 =>
      cases hcre : CheckResponseError r0 with
      | none =>
        have hfs := finishSuccess_rateLimits wantBody st r0 (attempts + 1) delays
        refine ⟨fun r h => ?_, fun e h => ?_, fun h => ?_⟩ <;>
          simp only [doGetHeadersLoop, hcre] at h ⊢
        · exact hfs.1 r h
        · exact hfs.2.1 e h
        · exact (hfs.2.2 h).elim
      | some e =>
        by_cases hle : retries ≤ 1
        · refine ⟨fun r h => ?_, fun e2 h => ?_, fun h => ?_⟩
          · simp [doGetHeadersLoop, hcre, hle] at h
          · simp [doGetHeadersLoop, hcre, hle]
          · simp [doGetHeadersLoop, hcre, hle] at h
        · have hother : ∀ e2 : GoError,
              CheckResponseError r0 = some e2 →
              (∀ e' ra, e2 ≠ .rateLimitError e' ra) →
              (∀ r, (doGetHeadersLoop wantBody st retries attempts delays
                  (.resp r0 :: rest)).outcome = .ok r →
                (doGetHeadersLoop wantBody st retries attempts delays
                  (.resp r0 :: rest)).state.RateLimits = updateRateLimits st.RateLimits r) ∧
              (∀ e3, (doGetHeadersLoop wantBody st retries attempts delays
                  (.resp r0 :: rest)).outcome = .err e3 →
                (doGetHeadersLoop wantBody st retries attempts delays
                  (.resp r0 :: rest)).state.RateLimits = st.RateLimits) ∧
              ((doGetHeadersLoop wantBody st retries attempts delays
                  (.resp r0 :: rest)).outcome = .exhausted →
                (doGetHeadersLoop wantBody st retries attempts delays
                  (.resp r0 :: rest)).state.RateLimits = st.RateLimits) := by
            intro e2 hcre2 hne
            by_cases h503 : r0.StatusCode = 503
            · have hred : doGetHeadersLoop wantBody st retries attempts delays
                  (.resp r0 :: rest) =
                  doGetHeadersLoop wantBody st (retries - 1) (attempts + 1) delays rest := by
                cases e2 <;> first
                  | exact absurd rfl (hne _ _)
                  | simp [doGetHeadersLoop, hcre2, hle, h503]
              rw [hred]
              exact ih (retries - 1) (attempts + 1) delays
            · have hred : doGetHeadersLoop wantBody st retries attempts delays
                  (.resp r0 :: rest) =
                  ⟨.err e2, delays, attempts + 1, st⟩ := by
                cases e2 <;> first
                  | exact absurd rfl (hne _ _)
                  | simp [doGetHeadersLoop, hcre2, hle, h503]
              rw [hred]
              refine ⟨fun r h => ?_, fun e3 h => ?_, fun h => ?_⟩
              · simp at h
              · rfl
              · simp at h
          cases e with
          | rateLimitError e0 ra =>
            have hred : doGetHeadersLoop wantBody st retries attempts delays
                (.resp r0 :: rest) =
                doGetHeadersLoop wantBody st (retries - 1) (attempts + 1) (delays ++ [ra]) rest := by
              simp [doGetHeadersLoop, hcre, hle]
            rw [hred]
            exact ih (retries - 1) (attempts + 1) (delays ++ [ra])
          | responseError e0 => exact hother _ hcre (by intro e' ra h; cases h)
          | responseDecodingError b m s => exact hother _ hcre (by intro e' ra h; cases h)
          | jsonDecodeError m => exact hother _ hcre (by intro e' ra h; cases h)
          | transportError => exact hother _ hcre (by intro e' ra h; cases h)
          | atoiError s => exact hother _ hcre (by intro e' ra h; cases h)
          | urlError m => exact hother _ hcre (by intro e' ra h; cases h)

/-- C9, counterexample: a call whose single attempt yields a classified
500 error returns that error and leaves the rate-limit state untouched,
even though the observed response advertised a call limit of 32/40 — so
the rate-limit state is not updated after every completed call. -/
theorem spec_c9_counterexample :
    doGetHeaders true 0 stEx [.resp resp500ex] =
      ⟨.err (.responseError ⟨500, "", []⟩), [], 1, stEx⟩ ∧
    resp500ex.CallLimitHdr = some (32, 40) ∧
    stEx.RateLimits.RequestCount ≠ 32 := by
  refine ⟨by decide, by decide, by decide⟩

/-- C9, amended: the client's rate-limit state is updated only after a
response has been received, never speculatively: a call that completes
successfully leaves the state reflecting the final response's headers,
while a call that returns a transport, classified, or body-decode error
leaves the rate-limit state unchanged. -/
theorem spec_c9_rate_limit_update (wantBody : Bool) (retries : Int) (st : ClientState)
    (atts : List Attempt) :
    (∀ r, (doGetHeaders wantBody retries st atts).outcome = .ok r →
      (doGetHeaders wantBody retries st atts).state.RateLimits =
        updateRateLimits st.RateLimits r) ∧
    (∀ e, (doGetHeaders wantBody retries st atts).outcome = .err e →
      (doGetHeaders wantBody retries st atts).state.RateLimits = st.RateLimits) ∧
    ((doGetHeaders wantBody retries st atts).outcome = .exhausted →
      (doGetHeaders wantBody retries st atts).state.RateLimits = st.RateLimits) :=
  doGetHeadersLoop_state_aux wantBody st atts retries 0 []

/-- C2, counterexample: a throttled round whose cost snapshot suggests a
1.5-second wait sleeps only 1 second before retrying (the wait is
truncated to whole seconds by the `time.Duration` conversion), so Query
does not sleep the suggested wait itself. -/
theorem spec_c2_counterexample :
    (Query 5 [⟨1, none, [⟨"Throttled", some "THROTTLED"⟩],
        some ⟨175, none, ⟨1000, 100, 50⟩⟩⟩, ⟨1, none, [], none⟩]).delays = [1] ∧
    GraphQLCost.RetryAfterSeconds ⟨175, none, ⟨1000, 100, 50⟩⟩ = 3 / 2 ∧
    ((1 : ℚ) ≠ 3 / 2) := by
  have hra : graphQLRa ⟨1, none, [⟨"Throttled", some "THROTTLED"⟩],
      some ⟨175, none, ⟨1000, 100, 50⟩⟩⟩ = 3 / 2 := by
    norm_num [graphQLRa, GraphQLCost.RetryAfterSeconds]
  have hfl : Rat.floor (3 / 2 : ℚ) = 1 := by
    have hle : (1 : ℤ) ≤ Rat.floor (3 / 2 : ℚ) := Rat.le_floor.mpr (by norm_num)
    have hlt : Rat.floor (3 / 2 : ℚ) < 2 := by
      by_contra hc
      push_neg at hc
      have := Rat.le_floor.mp hc
      norm_num at this
    omega
  have hg : goTrunc (3 / 2 : ℚ) = 1 := by
    rw [goTrunc, if_pos (by norm_num)]
    exact hfl
  refine ⟨?_, by norm_num [GraphQLCost.RetryAfterSeconds], by norm_num⟩
  simp [Query, queryLoop, hra, hg, graphQLError.throttled]

/-- C2, amended: for every `Query` round with at least one query error —
if some error is throttled and the accumulated attempts have reached the
retry limit, the call returns a rate-limit error carrying the suggested
wait truncated to whole seconds (with the first throttled error's
message); if some error is throttled and the limit is not reached, the
call sleeps the suggested wait truncated to whole seconds and retries
the whole query; if no error is throttled, the call returns a generic
status-200 API error aggregating all error messages, without
retrying. -/
theorem spec_c2_query_throttle (retries : Int) (attempts : Nat) (delays : List Int)
    (rd : GQLRound) (rest : List GQLRound) (hne : rd.Errors ≠ []) :
    (∀ te, rd.Errors.find? (fun e => e.throttled) = some te →
        retries ≤ ((attempts + rd.postAttempts : Nat) : Int) →
      queryLoop retries attempts delays (rd :: rest) =
        ⟨some (some (.rateLimitError ⟨200, te.Message, []⟩ (goTrunc (graphQLRa rd)))),
         delays, attempts + rd.postAttempts⟩) ∧
    (∀ te, rd.Errors.find? (fun e => e.throttled) = some te →
        ¬ retries ≤ ((attempts + rd.postAttempts : Nat) : Int) →
      queryLoop retries attempts delays (rd :: rest) =
        queryLoop retries (attempts + rd.postAttempts)
          (delays ++ [goTrunc (graphQLRa rd)]) rest) ∧
    (rd.Errors.find? (fun e => e.throttled) = none →
      queryLoop retries attempts delays (rd :: rest) =
        ⟨some (some (.responseError ⟨200, "", rd.Errors.map (fun e => e.Message)⟩)),
         delays, attempts + rd.postAttempts⟩) := by
  cases hE : rd.Errors with
  | nil => exact absurd hE hne
  | cons e0 es =>
    have hq : queryLoop retries attempts delays (rd :: rest) =
        (match (e0 :: es).find? (fun e => e.throttled) with
         | some te =>
           if retries ≤ ((attempts + rd.postAttempts : Nat) : Int) then
             ⟨some (some (.rateLimitError ⟨200, te.Message, []⟩ (goTrunc (graphQLRa rd)))),
              delays, attempts + rd.postAttempts⟩
           else
             queryLoop retries (attempts + rd.postAttempts)
               (delays ++ [goTrunc (graphQLRa rd)]) rest
         | none =>
           ⟨some (some (.responseError ⟨200, "", (e0 :: es).map (fun e => e.Message)⟩)),
            delays, attempts + rd.postAttempts⟩) := by
      simp [queryLoop, hE]
    refine ⟨fun te hfind hle => ?_, fun te hfind hnle => ?_, fun hfind => ?_⟩
    · rw [hq]
      simp only [hfind]
      rw [if_pos hle]
    · rw [hq]
      simp only [hfind]
      rw [if_neg hnle]
    · rw [hq]
      simp only [hfind, hE]

/-- Witness for C2 at concrete rounds: with budget 1 a throttled round
fails with a rate-limit error carrying the truncated 2-second wait; a
round with only plain errors aggregates both messages into a status-200
API error. -/
theorem spec_c2_witness :
    Query 1 [rdThrottled] =
      ⟨some (some (.rateLimitError ⟨200, "Throttled", []⟩ 2)), [], 1⟩ ∧
    Query 5 [rdPlain] =
      ⟨some (some (.responseError ⟨200, "", ["Nope", "Also"]⟩)), [], 1⟩ := by
  have hra : graphQLRa rdThrottled = 2 := by
    norm_num [graphQLRa, rdThrottled, GraphQLCost.RetryAfterSeconds]
  have hg : goTrunc (graphQLRa rdThrottled) = 2 := by
    rw [hra, goTrunc, if_pos (by norm_num)]
    decide
  have h1 := (spec_c2_query_throttle 1 0 [] rdThrottled [] (by decide)).1
    ⟨"Throttled", some "THROTTLED"⟩ (by decide) (by decide)
  have h2 := (spec_c2_query_throttle 5 0 [] rdPlain [] (by decide)).2.2 (by decide)
  constructor
  · rw [show Query 1 [rdThrottled] = queryLoop 1 0 [] [rdThrottled] from rfl, h1, hg]
    decide
  · rw [show Query 5 [rdPlain] = queryLoop 5 0 [] [rdPlain] from rfl, h2]
    decide

/-- C5: processing one entry of a non-empty Link header (each entry of
the comma-split header in order) fails with the decoding error
`"could not extract pagination link header"` when the entry does not
match the two-capture link pattern; fails with the decoding error
`"page_info is missing"` when the matched entry's URL query has no
`page_info` parameter; and fails with the numeric-parse error itself
when a non-empty `limit` parameter is not an integer. -/
theorem spec_c5_link_errors :
    (∀ h : String, h ≠ "" →
      extractPagination h = (goSplit h ',').foldlM processLink {}) ∧
    (∀ (p : Pagination) (link : String), linkRegexMatch link = none →
      processLink p link =
        .error (.responseDecodingError "" "could not extract pagination link header" 0)) ∧
    (∀ (p : Pagination) (link u rel : String) (parts : UrlParts)
        (params : List (String × String)),
      linkRegexMatch link = some (u, rel) → urlParse u = .ok parts →
      parseQuery parts.RawQuery = .ok params → getParam params "page_info" = "" →
      processLink p link = .error (.responseDecodingError "" "page_info is missing" 0)) ∧
    (∀ (p : Pagination) (link u rel : String) (parts : UrlParts)
        (params : List (String × String)) (e : GoError),
      linkRegexMatch link = some (u, rel) → urlParse u = .ok parts →
      parseQuery parts.RawQuery = .ok params → getParam params "page_info" ≠ "" →
      getParam params "limit" ≠ "" → atoi (getParam params "limit") = .error e →
      processLink p link = .error e) := by
  refine ⟨fun h hne => ?_, fun p link hm => ?_, ?_, ?_⟩
  · simp [extractPagination, hne]
  · simp [processLink, hm]
  · intro p link u rel parts params hm hu hq hpi
    simp [processLink, hm, hu, hq, hpi]
  · intro p link u rel parts params e hm hu hq hpi hlim hatoi
    simp [processLink, hm, hu, hq, hpi, hlim, hatoi]

/-- Witness for C5 at the three concrete failing headers exercised by the
source's tests. -/
theorem spec_c5_witness :
    extractPagination "invalid link" =
      (goSplit "invalid link" ',').foldlM processLink {} ∧
    processLink {} "invalid link" =
      .error (.responseDecodingError "" "could not extract pagination link header" 0) ∧
    processLink {} "<http://valid.url>; rel=\"next\"" =
      .error (.responseDecodingError "" "page_info is missing" 0) ∧
    processLink {} "<http://valid.url?page_info=foo&limit=invalid>; rel=\"next\"" =
      .error (.atoiError "invalid") := by
  obtain ⟨c1, c2, c3, c4⟩ := spec_c5_link_errors
  refine ⟨c1 "invalid link" (by decide), c2 {} "invalid link" (by decide), ?_, ?_⟩
  · exact c3 {} "<http://valid.url>; rel=\"next\"" "http://valid.url" "next" ⟨""⟩ []
      (by decide) (by decide) (by decide) (by decide)
  · exact c4 {} "<http://valid.url?page_info=foo&limit=invalid>; rel=\"next\""
      "http://valid.url?page_info=foo&limit=invalid" "next" ⟨"page_info=foo&limit=invalid"⟩
      [("page_info", "foo"), ("limit", "invalid")] (.atoiError "invalid")
      (by decide) (by decide) (by decide) (by decide) (by decide) (by decide)

theorem processLink_next_char (p q : Pagination) (link : String)
    (h : processLink p link = .ok q) :
    ((∃ u, linkRegexMatch link = some (u, "next")) ∧ ∃ opts, q.NextPageOptions = some opts) ∨
    ((¬ ∃ u, linkRegexMatch link = some (u, "next")) ∧
      q.NextPageOptions = p.NextPageOptions) := by
  simp only [processLink] at h
  cases hm : linkRegexMatch link with
  | none => simp [hm] at h
  | some pr =>
    obtain ⟨u, rel⟩ := pr
    simp only [hm] at h
    cases hu : urlParse u with
    | error e => simp [hu] at h
    | ok parts =>
      simp only [hu] at h
      cases hq2 : parseQuery parts.RawQuery with
      | error e => simp [hq2] at h
      | ok params =>
        simp only [hq2] at h
        by_cases hpi : getParam params "page_info" = ""
        · simp [hpi] at h
        · simp only [if_neg hpi] at h
          cases hlim : (if getParam params "limit" = "" then (.ok 0 : Except GoError Int)
              else atoi (getParam params "limit")) with
          | error e => simp [hlim] at h
          | ok lim =>
            simp only [hlim] at h
            by_cases hrel : rel = "next"
            · subst hrel
              simp only [if_pos rfl] at h
              obtain rfl := Except.ok.inj h
              exact Or.inl ⟨⟨u, rfl⟩, _, rfl⟩
            · simp only [if_neg hrel] at h
              obtain rfl := Except.ok.inj h
              refine Or.inr ⟨?_, rfl⟩
              rintro ⟨u', hu'⟩
              have h2 : (u, rel) = (u', "next") := by injection hu'
              exact hrel (congrArg Prod.snd h2)

theorem foldlM_processLink_next (links : List String) :
    ∀ p q : Pagination, links.foldlM processLink p = .ok q →
      (q.NextPageOptions ≠ none ↔
        (p.NextPageOptions ≠ none ∨
          ∃ link ∈ links, ∃ u, linkRegexMatch link = some (u, "next"))) := by
  induction links with
  | nil =>
    intro p q h
    simp only [List.foldlM_nil] at h
    obtain rfl : p = q := by injection h
    simp
  | cons l ls ih =>
    intro p q h
    rw [List.foldlM_cons] at h
    cases hpl : processLink p l with
    | error e =>
      rw [hpl] at h
      simp [Bind.bind, Except.bind] at h
    | ok p' =>
      rw [hpl] at h
      simp only [Bind.bind, Except.bind] at h
      have hiff := ih p' q h
      rcases processLink_next_char p p' l hpl with ⟨⟨u, hu⟩, opts, hopts⟩ | ⟨hno, heq⟩
      · constructor
        · intro _
          exact Or.inr ⟨l, by simp, u, hu⟩
        · intro _
          exact hiff.mpr (Or.inl (by rw [hopts]; simp))
      · rw [hiff, heq]
        constructor
        · rintro (hp | ⟨l2, hl2, hu2⟩)
          · exact Or.inl hp
          · exact Or.inr ⟨l2, by simp [hl2], hu2⟩
        · rintro (hp | ⟨l2, hl2, hu2⟩)
          · exact Or.inl hp
          · rcases List.mem_cons.mp hl2 with rfl | hl2'
            · exact absurd hu2 hno
            · exact Or.inr ⟨l2, hl2', hu2⟩

/-- C4: an empty Link header extracts to a pagination value with both
cursors absent and no error, and for every successful extraction the
returned next-page options are non-empty exactly when some comma-split
entry of the header matches the link pattern with the `next` relation. -/
theorem spec_c4_pagination_next :
    (extractPagination "" = .ok { NextPageOptions := none, PreviousPageOptions := none }) ∧
    (∀ (h : String) (p : Pagination), extractPagination h = .ok p →
      (p.NextPageOptions ≠ none ↔
        ∃ link ∈ goSplit h ',', ∃ u, linkRegexMatch link = some (u, "next"))) := by
  refine ⟨by decide, ?_⟩
  intro h p hok
  by_cases hemp : h = ""
  · subst hemp
    have hp : p = {} := by
      simpa [extractPagination] using hok.symm
    subst hp
    simp only [Pagination.mk.injEq]
    constructor
    · intro hc
      exact absurd rfl hc
    · rintro ⟨link, hlink, u, hu⟩
      have hl : link = "" := by
        simpa [goSplit, splitOnChar] using hlink
      rw [hl] at hu
      rw [show linkRegexMatch "" = none from by decide] at hu
      cases hu
  · have hfold : (goSplit h ',').foldlM processLink {} = .ok p := by
      simpa [extractPagination, hemp] using hok
    have hiff := foldlM_processLink_next (goSplit h ',') {} p hfold
    simpa using hiff

/-- Witness for C4 at a concrete header with a single `next` relation. -/
theorem spec_c4_witness :
    extractPagination "<http://valid.url?page_info=foo>; rel=\"next\"" =
      .ok { NextPageOptions := some { PageInfo := "foo", Limit := 0 },
            PreviousPageOptions := none } ∧
    ((Pagination.mk (some { PageInfo := "foo", Limit := 0 }) none).NextPageOptions ≠ none ↔
      ∃ link ∈ goSplit "<http://valid.url?page_info=foo>; rel=\"next\"" ',',
        ∃ u, linkRegexMatch link = some (u, "next")) := by
  have hok : extractPagination "<http://valid.url?page_info=foo>; rel=\"next\"" =
      .ok { NextPageOptions := some { PageInfo := "foo", Limit := 0 },
            PreviousPageOptions := none } := by decide
  exact ⟨hok, spec_c4_pagination_next.2 _ _ hok⟩

theorem valuesOf_cons (k0 : String) (vs0 : List String) (tl : Values) (k2 : String) :
    valuesOf ((k0, vs0) :: tl) k2 = if k0 = k2 then vs0 else valuesOf tl k2 := by
  by_cases h : k0 = k2 <;> simp [valuesOf, List.find?_cons, h]

theorem valuesAdd_nodup (vs : Values) (k v : String) (hnd : (vs.map Prod.fst).Nodup) :
    ((valuesAdd vs k v).map Prod.fst).Nodup := by
  unfold valuesAdd
  split_ifs with hany
  · have hkeys : (vs.map (fun kv => if kv.1 = k then (kv.1, kv.2 ++ [v]) else kv)).map Prod.fst =
        vs.map Prod.fst := by
      rw [List.map_map]
      apply List.map_congr_left
      intro kv _
      by_cases h : kv.1 = k <;> simp [h]
    rw [hkeys]
    exact hnd
  · rw [List.map_append]
    simp only [List.map_cons, List.map_nil]
    refine List.Nodup.append hnd (List.nodup_singleton k) ?_
    intro a ha hb
    obtain rfl : a = k := by simpa using hb
    obtain ⟨kv, hkv, hfst⟩ := List.mem_map.mp ha
    exact hany (List.any_eq_true.mpr ⟨kv, hkv, by simpa using hfst⟩)

theorem valuesOf_valuesAdd :
    ∀ (vs : Values), (vs.map Prod.fst).Nodup → ∀ (k k2 v : String),
      valuesOf (valuesAdd vs k v) k2 =
        if k2 = k then valuesOf vs k ++ [v] else valuesOf vs k2 := by
  intro vs
  induction vs with
  | nil =>
    intro _ k k2 v
    by_cases h : k2 = k
    · simp [valuesAdd, valuesOf, h]
    · have h2 : ¬ k = k2 := fun hh => h hh.symm
      simp [valuesAdd, valuesOf, h, h2]
  | cons kv0 tl ih =>
    intro hnd k k2 v
    obtain ⟨k0, vs0⟩ := kv0
    have hnd' : (tl.map Prod.fst).Nodup := (List.nodup_cons.mp (by simpa using hnd)).2
    have hk0tl : k0 ∉ tl.map Prod.fst := (List.nodup_cons.mp (by simpa using hnd)).1
    by_cases hk0 : k0 = k
    · have hadd : valuesAdd ((k0, vs0) :: tl) k v = (k0, vs0 ++ [v]) :: tl := by
        have hany : ((k0, vs0) :: tl).any (fun kv => kv.1 = k) = true := by
          simp [hk0]
        unfold valuesAdd
        rw [if_pos hany]
        simp only [List.map_cons]
        congr 1
        · simp [hk0]
        · have hid : ∀ kv ∈ tl, (if kv.1 = k then (kv.1, kv.2 ++ [v]) else kv) = kv := by
            intro kv hkv
            have hne2 : kv.1 ≠ k := by
              intro he
              exact hk0tl (by
                rw [hk0, ← he]
                exact List.mem_map_of_mem Prod.fst hkv)
            simp [hne2]
          calc tl.map (fun kv => if kv.1 = k then (kv.1, kv.2 ++ [v]) else kv)
              = tl.map id := List.map_congr_left hid
            _ = tl := List.map_id tl
      rw [hadd]
      simp only [valuesOf_cons]
      by_cases hk2 : k2 = k
      · have h02 : k0 = k2 := by rw [hk0, hk2]
        simp [h02, hk2, hk0]
      · have h02 : ¬ k0 = k2 := by
          rw [hk0]
          exact fun h => hk2 h.symm
        simp [h02, hk2]
    · have hadd : valuesAdd ((k0, vs0) :: tl) k v = (k0, vs0) :: valuesAdd tl k v := by
        unfold valuesAdd
        by_cases hany : tl.any (fun kv => kv.1 = k) = true
        · have hany2 : ((k0, vs0) :: tl).any (fun kv => kv.1 = k) = true := by
            simp [hany]
          rw [if_pos hany2, if_pos hany]
          simp [hk0]
        · have hany2 : ¬ ((k0, vs0) :: tl).any (fun kv => kv.1 = k) = true := by
            simp only [List.any_cons, Bool.or_eq_true, decide_eq_true_eq]
            push_neg
            exact ⟨hk0, by simpa using hany⟩
          rw [if_neg hany2, if_neg hany]
          simp
      rw [hadd]
      simp only [valuesOf_cons]
      rw [ih hnd' k k2 v]
      by_cases h02 : k0 = k2
      · have hk2 : ¬ k2 = k := fun h => hk0 (h02.trans h)
        simp [h02, hk2]
      · by_cases hk2 : k2 = k <;> simp [h02, hk2, hk0]

theorem foldAdd_valuesOf (prs : List (String × String)) :
    ∀ (acc : Values), (acc.map Prod.fst).Nodup → ∀ k,
      valuesOf (prs.foldl (fun a kv => valuesAdd a kv.1 kv.2) acc) k =
        valuesOf acc k ++
          prs.filterMap (fun kv => if kv.1 = k then some kv.2 else none) := by
  induction prs with
  | nil =>
    intro acc _ k
    simp
  | cons pr tl ih =>
    intro acc hnd k
    rw [List.foldl_cons, ih (valuesAdd acc pr.1 pr.2) (valuesAdd_nodup acc pr.1 pr.2 hnd) k,
      valuesOf_valuesAdd acc hnd pr.1 k pr.2]
    by_cases hk : k = pr.1
    · subst hk
      simp [List.filterMap_cons]
    · have hk' : ¬ pr.1 = k := fun h => hk h.symm
      simp [hk, hk', List.filterMap_cons]

/-- C8, counterexample: with literal path parameter `b=1` and options
parameter `a=2`, the built query is `a=2&b=1` — the options-derived
parameter comes first, not appended after the literal path parameter as
the claim states. -/
theorem spec_c8_counterexample :
    newRequestRawQuery "b=1" [("a", ["2"])] = "a=2&b=1" ∧
    ("a=2&b=1" : String) ≠ "b=1&a=2" := by
  exact ⟨by decide, by decide⟩

/-- C8, amended: for every request built with a non-nil options value and
a path carrying literal query parameters, the built query preserves both
parameter sets — for each key, the merged values are the options-derived
values followed by the literal path values — and the encoding orders
parameters by sorted key (not by provenance), as the concrete `a=1` path
with options `a=2` encoding to `a=2&a=1` shows. -/
theorem spec_c8_query_merge (pathRawQuery : String) (optionsQuery : Values)
    (hnd : (optionsQuery.map Prod.fst).Nodup) :
    (∀ k, valuesOf (mergeQueryValues pathRawQuery optionsQuery) k =
      valuesOf optionsQuery k ++ pathVals pathRawQuery k) ∧
    newRequestRawQuery "a=1" [("a", ["2"])] = "a=2&a=1" := by
  refine ⟨fun k => ?_, by decide⟩
  simpa [mergeQueryValues, pathVals] using
    foldAdd_valuesOf (parseQueryValuesLoop (splitOnChar '&' pathRawQuery.toList))
      optionsQuery hnd k

/-- Witness for C8 at a concrete merge: path `b=1&a=3` with options value
`a=2` records `["2", "3"]` under `a` — options first, path value
preserved after it. -/
theorem spec_c8_witness :
    valuesOf (mergeQueryValues "b=1&a=3" [("a", ["2"])]) "a" = ["2", "3"] ∧
    newRequestRawQuery "a=1" [("a", ["2"])] = "a=2&a=1" := by
  have h := spec_c8_query_merge "b=1&a=3" [("a", ["2"])] (by decide)
  exact ⟨(h.1 "a").trans (by decide), h.2⟩

/-- Witness for C9 at concrete runs: the successful run's state reflects
the response's 32/40 call limit and retry-after, the erroring run's state
is unchanged. -/
theorem spec_c9_witness :
    (doGetHeaders true 0 stEx [.resp resp200ex]).state.RateLimits =
      updateRateLimits stEx.RateLimits resp200ex ∧
    (doGetHeaders true 0 stEx [.resp resp500ex]).state.RateLimits = stEx.RateLimits := by
  refine ⟨(spec_c9_rate_limit_update true 0 stEx [.resp resp200ex]).1 resp200ex (by decide), ?_⟩
  exact (spec_c9_rate_limit_update true 0 stEx [.resp resp500ex]).2.1
    (.responseError ⟨500, "", []⟩) (by decide)

end GoShopify
